import Mathlib

/-!
Verification of the non-blocking I2C transaction manager of
CommandStation-DCC (src/I2CManager_NonBlocking.h).

The manager owns an intrusive FIFO of request blocks (I2CRB), a small
state register, scratch counters, and a timeout clock.  We embed the
state shallowly: the heap of request blocks is a function from block
identifiers (Nat, standing in for pointers) to I2CRB records, pointers
are Option Nat, and each operation is a pure function returning the new
state together with the list of hardware-adapter primitives it invoked.
-/

namespace I2CCore

/-- Status and state codes.  Modelled from the spec: the numeric values
live in I2CManager.h, which is not part of the extracted sources; the
spec fixes the closed set of codes (pending, ok, timeout, bus errors)
and the manager states (free, active).  The code relies on the state
register value for an in-flight transaction being the same code the
hardware step leaves while the transaction is still pending, so
I2C_STATE_ACTIVE and I2C_STATUS_PENDING share a value. -/
def I2C_STATUS_OK : Nat := 0

/-- Timeout error code, stamped on a request by the timeout path. -/
def I2C_STATUS_TIMEOUT : Nat := 5

/-- Status of a request that is queued or in progress. -/
def I2C_STATUS_PENDING : Nat := 253

/-- Manager state register value while a transaction is on the bus. -/
def I2C_STATE_ACTIVE : Nat := 253

/-- Manager state register value when the bus is idle. -/
def I2C_STATE_FREE : Nat := 254

/-- Operation kind codes.  Modelled from the spec: plain write,
write-from-persistent-memory, and read (optionally preceded by a
write); numeric values as declared in I2CManager.h. -/
def OPERATION_READ : Nat := 1

/-- Read preceded by a register-select write. -/
def OPERATION_REQUEST : Nat := 2

/-- Plain write from RAM. -/
def OPERATION_SEND : Nat := 3

/-- Write from persistent (flash) memory. -/
def OPERATION_SEND_P : Nat := 4

/-- One I2C request block (struct I2CRB): target address, operation
kind, payload lengths, outcome fields, and the intrusive queue link.
Buffer pointers are not modelled; lengths are. -/
structure I2CRB where
  i2cAddress : Nat
  operation : Nat
  writeLen : Nat
  readLen : Nat
  status : Nat
  nBytes : Nat
  nextRequest : Option Nat
deriving Repr, DecidableEq

/-- The hardware-adapter primitives the manager can invoke (external
collaborator contract).  Each operation returns the ordered list of
primitives it called. -/
inductive HWCall where
  | init : HWCall
  | close : HWCall
  | sendStart : HWCall
  | handleIrq : HWCall
deriving Repr, DecidableEq

/-- The manager state: the heap of request blocks, the queue head and
tail pointers, the current-request pointer, the state register, the
scratch counters copied from the head block at start, and the
start-time / timeout clock fields (unsigned long in the source). -/
structure MgrState where
  blocks : Nat → I2CRB
  queueHead : Option Nat
  queueTail : Option Nat
  currentRequest : Option Nat
  status : Nat
  txCount : Nat
  rxCount : Nat
  operation : Nat
  bytesToSend : Nat
  bytesToReceive : Nat
  startTime : Nat
  timeout : Nat

/-- Pointwise heap update at one block identifier. -/
def setBlock (blocks : Nat → I2CRB) (i : Nat) (b : I2CRB) : Nat → I2CRB :=
  fun j => if j = i then b else blocks j

/-- Unsigned 32-bit subtraction, as performed by the C expression
currentMicros - startTime on unsigned long operands: the difference
modulo 2^32 (4294967296). -/
def usub32 (a b : Nat) : Nat :=
  (a % 4294967296 + (4294967296 - b % 4294967296)) % 4294967296

/-- I2CManagerClass::startTransaction.  If the queue head is non-null
and the state register is free, set the register active, zero the byte
counters, copy the head block key fields into scratch state, issue the
hardware send-start primitive and record the start timestamp (micros()
is modelled by the parameter now).  Otherwise do nothing. -/
def startTransaction (now : Nat) (s : MgrState) : MgrState × List HWCall :=
  match s.queueHead with
  | none => (s, [])
  | some t =>
      if s.status = I2C_STATE_FREE then
        ({ s with
            status := I2C_STATE_ACTIVE
            rxCount := 0
            txCount := 0
            currentRequest := some t
            operation := (s.blocks t).operation
            bytesToSend := (s.blocks t).writeLen
            bytesToReceive := (s.blocks t).readLen
            startTime := now },
         [HWCall.sendStart])
      else (s, [])

/-- I2CManagerClass::queueRequest.  Stamp the block pending and clear
its link, append it at the tail (head and tail if the queue was empty,
else link it behind the old tail), then call startTransaction. -/
def queueRequest (rb : Nat) (now : Nat) (s : MgrState) : MgrState × List HWCall :=
  let blocks1 := setBlock s.blocks rb
    { s.blocks rb with status := I2C_STATUS_PENDING, nextRequest := none }
  let s1 :=
    match s.queueTail with
    | none =>
        { s with blocks := blocks1, queueHead := some rb, queueTail := some rb }
    | some tl =>
        { s with
            blocks := setBlock blocks1 tl { blocks1 tl with nextRequest := some rb }
            queueTail := some rb }
  startTransaction now s1

/-- I2CManagerClass::checkForTimeout.  If the queue head is non-null,
the timeout is positive and the elapsed time (unsigned 32-bit
difference between now and the start timestamp) exceeds the timeout,
dequeue the head, clear currentRequest, stamp the head with the
timeout status, reset the adapter (close then init) and free the state
register.  In all cases finish by calling startTransaction. -/
def checkForTimeout (now : Nat) (s : MgrState) : MgrState × List HWCall :=
  match s.queueHead with
  | none => startTransaction now s
  | some t =>
      if 0 < s.timeout ∧ s.timeout < usub32 now s.startTime then
        let nxt := (s.blocks t).nextRequest
        let s1 :=
          { s with
              blocks := setBlock s.blocks t { s.blocks t with status := I2C_STATUS_TIMEOUT }
              queueHead := nxt
              queueTail := match nxt with | none => none | some _ => s.queueTail
              currentRequest := none
              status := I2C_STATE_FREE }
        let r := startTransaction now s1
        (r.1, HWCall.close :: HWCall.init :: r.2)
      else startTransaction now s

/-- I2CManagerClass::loop, the background poll: just checkForTimeout. -/
def loop (now : Nat) (s : MgrState) : MgrState × List HWCall :=
  checkForTimeout now s

/-- I2CManagerClass::handleInterrupt.  First the external hardware step
I2C_handleInterrupt runs; per the adapter contract it advances one
phase and updates the manager-visible scratch fields, so it is modelled
by the parameters hwStatus, hwRx, hwTx giving the values it leaves in
status, rxCount and txCount.  If the status register is then no longer
pending, pop the head block (if any), stamp its nBytes and status,
free the state register and call startTransaction. -/
def handleInterrupt (hwStatus hwRx hwTx now : Nat) (s : MgrState) : MgrState × List HWCall :=
  let s0 := { s with status := hwStatus, rxCount := hwRx, txCount := hwTx }
  if s0.status ≠ I2C_STATUS_PENDING then
    match s0.queueHead with
    | none =>
        let s1 := { s0 with status := I2C_STATE_FREE }
        let r := startTransaction now s1
        (r.1, HWCall.handleIrq :: r.2)
    | some t =>
        let nxt := (s0.blocks t).nextRequest
        let s1 :=
          { s0 with
              blocks := setBlock s0.blocks t
                { s0.blocks t with nBytes := hwRx, status := hwStatus }
              queueHead := nxt
              queueTail := match nxt with | none => none | some _ => s0.queueTail
              status := I2C_STATE_FREE }
        let r := startTransaction now s1
        (r.1, HWCall.handleIrq :: r.2)
  else (s0, [HWCall.handleIrq])

/-- I2CManagerClass::_initialise: clear the queue pointers, free the
state register and initialise the adapter. -/
def initialise (s : MgrState) : MgrState × List HWCall :=
  ({ s with queueHead := none, queueTail := none, status := I2C_STATE_FREE },
   [HWCall.init])

/-- Modelled from the spec: I2CRB::setWriteParams lives in I2CManager.h,
not in the extracted sources; configure-write sets kind to plain write
and copies the address and write length (buffers are not modelled). -/
def setWriteParams (addr wlen : Nat) (b : I2CRB) : I2CRB :=
  { b with i2cAddress := addr, operation := OPERATION_SEND, writeLen := wlen }

/-- Modelled from the spec: I2CRB::setRequestParams lives in
I2CManager.h, not in the extracted sources; configure-read sets the
write-then-read kind and copies the address and both lengths. -/
def setRequestParams (addr rlen wlen : Nat) (b : I2CRB) : I2CRB :=
  { b with
      i2cAddress := addr
      operation := OPERATION_REQUEST
      readLen := rlen
      writeLen := wlen }

/-- Modelled from the spec: I2CRB::wait lives in I2CManager.h, not in
the extracted sources; block-until-terminal busy-polls the background
timeout check (loop) until the block status leaves pending.  The busy
loop is given explicit fuel; none means the fuel ran out while the
block was still pending. -/
def wait (fuel : Nat) (rb : Nat) (now : Nat) (s : MgrState) : Option MgrState :=
  match fuel with
  | 0 => none
  | Nat.succ fuel =>
      let s1 := (loop now s).1
      if (s1.blocks rb).status = I2C_STATUS_PENDING then wait fuel rb now s1
      else some s1

/-- I2CManagerClass::write: wait for any previous use of the block to
complete, configure it as a plain write, queue it, and return
I2C_STATUS_OK. -/
def write (addr wlen rb fuel now : Nat) (s : MgrState) : Option (MgrState × Nat) :=
  match wait fuel rb now s with
  | none => none
  | some s1 =>
      let s2 := { s1 with
        blocks := setBlock s1.blocks rb (setWriteParams addr wlen (s1.blocks rb)) }
      some ((queueRequest rb now s2).1, I2C_STATUS_OK)

/-- I2CManagerClass::write_P: as write, but after configuring the
block its operation kind is overwritten with the persistent-memory
write code. -/
def writeP (addr wlen rb fuel now : Nat) (s : MgrState) : Option (MgrState × Nat) :=
  match wait fuel rb now s with
  | none => none
  | some s1 =>
      let b1 := setWriteParams addr wlen (s1.blocks rb)
      let s2 := { s1 with
        blocks := setBlock s1.blocks rb { b1 with operation := OPERATION_SEND_P } }
      some ((queueRequest rb now s2).1, I2C_STATUS_OK)

/-- I2CManagerClass::read: wait for any previous use of the block to
complete, configure it as a (write-then-)read, queue it, and return
I2C_STATUS_OK. -/
def read (addr rlen wlen rb fuel now : Nat) (s : MgrState) : Option (MgrState × Nat) :=
  match wait fuel rb now s with
  | none => none
  | some s1 =>
      let s2 := { s1 with
        blocks := setBlock s1.blocks rb (setRequestParams addr rlen wlen (s1.blocks rb)) }
      some ((queueRequest rb now s2).1, I2C_STATUS_OK)

/-- A sequence of background polls at the given clock readings. -/
def loopSeq : List Nat → MgrState → MgrState
  | [], s => s
  | now :: ts, s => loopSeq ts (loop now s).1

/-- One foreground or interrupt event acting on the manager: an
enqueue, an interrupt (with the scratch values the hardware step
leaves), or a background poll. -/
inductive Event where
  | enq : Nat → Nat → Event
  | irq : Nat → Nat → Nat → Nat → Event
  | poll : Nat → Event
deriving Repr, DecidableEq

/-- The state transition of one event. -/
def step : Event → MgrState → MgrState
  | Event.enq rb now, s => (queueRequest rb now s).1
  | Event.irq a b c now, s => (handleInterrupt a b c now s).1
  | Event.poll now, s => (loop now s).1

/-- Run a list of events in order. -/
def run : List Event → MgrState → MgrState
  | [], s => s
  | e :: evs, s => run evs (step e s)

/-- The blocks an event stamps with a terminal status: the interrupt
path stamps the head when the hardware signal is no longer pending,
and the poll path stamps the head when the timeout fires. -/
def stampedOf : Event → MgrState → List Nat
  | Event.enq _ _, _ => []
  | Event.irq a _ _ _, s =>
      if a ≠ I2C_STATUS_PENDING then
        match s.queueHead with
        | some t => [t]
        | none => []
      else []
  | Event.poll now, s =>
      match s.queueHead with
      | some t =>
          if 0 < s.timeout ∧ s.timeout < usub32 now s.startTime then [t] else []
      | none => []

/-- The blocks stamped terminal over a run, in order. -/
def stampedRun : List Event → MgrState → List Nat
  | [], _ => []
  | e :: evs, s => stampedOf e s ++ stampedRun evs (step e s)

/-- The blocks enqueued by a list of events, in order. -/
def enqueued : List Event → List Nat
  | [] => []
  | Event.enq rb _ :: evs => rb :: enqueued evs
  | Event.irq _ _ _ _ :: evs => enqueued evs
  | Event.poll _ :: evs => enqueued evs

/-- Caller discipline along a run: a block is only re-submitted after
reaching a terminal status (its status is not pending at the enqueue),
as the public write and read operations ensure by waiting first. -/
def admissible : List Event → MgrState → Bool
  | [], _ => true
  | e :: evs, s =>
      (match e with
       | Event.enq rb _ => ! ((s.blocks rb).status == I2C_STATUS_PENDING)
       | Event.irq _ _ _ _ => true
       | Event.poll _ => true) && admissible evs (step e s)

/-- The heap links form exactly the list L starting from pointer p and
ending with a null link. -/
def chainFrom (blocks : Nat → I2CRB) : Option Nat → List Nat → Prop
  | p, [] => p = none
  | p, b :: L => p = some b ∧ chainFrom blocks (blocks b).nextRequest L

/-- The queue well-formedness invariant: the head links run exactly
through L, the tail points at the last element of L (so tail is null
iff head is null), no block appears twice, and a block has pending
status exactly when it is on the queue. -/
def WFq (s : MgrState) (L : List Nat) : Prop :=
  chainFrom s.blocks s.queueHead L ∧
  s.queueTail = L.getLast? ∧
  L.Nodup ∧
  ∀ b, (s.blocks b).status = I2C_STATUS_PENDING ↔ b ∈ L

/-! Frame and branch equations for the individual operations. -/

/-- startTransaction never changes the heap, the queue pointers or the
timeout configuration, and it never invokes close or init. -/
theorem startTransaction_frame (now : Nat) (s : MgrState) :
    (startTransaction now s).1.blocks = s.blocks ∧
    (startTransaction now s).1.queueHead = s.queueHead ∧
    (startTransaction now s).1.queueTail = s.queueTail ∧
    (startTransaction now s).1.timeout = s.timeout ∧
    HWCall.close ∉ (startTransaction now s).2 ∧
    HWCall.init ∉ (startTransaction now s).2 := by
  cases hq : s.queueHead with
  | none => simp [startTransaction, hq]
  | some t =>
      by_cases hs : s.status = I2C_STATE_FREE <;>
        simp [startTransaction, hq, hs]

/-- Example zero block, status ok. -/
def rb0 : I2CRB :=
  { i2cAddress := 0, operation := 0, writeLen := 0, readLen := 0
    status := I2C_STATUS_OK, nBytes := 0, nextRequest := none }

/-- Example manager state: free, empty queue, timeout disabled. -/
def exEmpty : MgrState :=
  { blocks := fun _ => rb0, queueHead := none, queueTail := none
    currentRequest := none, status := I2C_STATE_FREE, txCount := 0
    rxCount := 0, operation := 0, bytesToSend := 0, bytesToReceive := 0
    startTime := 0, timeout := 0 }

/-- Example pending block at the queue head. -/
def rbPend : I2CRB :=
  { i2cAddress := 32, operation := OPERATION_SEND, writeLen := 1, readLen := 0
    status := I2C_STATUS_PENDING, nBytes := 0, nextRequest := none }

/-- Example manager state: one pending block 0 queued and active on the
bus, timeout 10, transaction started at time 0. -/
def exOne : MgrState :=
  { blocks := fun i => if i = 0 then rbPend else rb0
    queueHead := some 0, queueTail := some 0, currentRequest := some 0
    status := I2C_STATE_ACTIVE, txCount := 0, rxCount := 0
    operation := OPERATION_SEND, bytesToSend := 1, bytesToReceive := 0
    startTime := 0, timeout := 10 }

/-- Example manager state: block 0 queued but the bus still free (as
after initialise with a stale queue), used to exercise the start
transition. -/
def exFreeQueued : MgrState :=
  { blocks := fun i => if i = 0 then rbPend else rb0
    queueHead := some 0, queueTail := some 0, currentRequest := none
    status := I2C_STATE_FREE, txCount := 0, rxCount := 0
    operation := 0, bytesToSend := 0, bytesToReceive := 0
    startTime := 0, timeout := 0 }

/-- C6: startTransaction is a guarded no-op: when the state register is
active or the queue is empty it changes nothing and calls no hardware
primitive; when the state is free and the queue non-empty it goes
active, zeroes the byte counters, copies the head block key fields
into scratch state, records the start timestamp and issues send-start. -/
theorem start_guarded_noop (s : MgrState) (now : Nat) :
    (s.status = I2C_STATE_ACTIVE ∨ s.queueHead = none →
      startTransaction now s = (s, [])) ∧
    (∀ t, s.queueHead = some t → s.status = I2C_STATE_FREE →
      startTransaction now s =
        ({ s with
            status := I2C_STATE_ACTIVE
            rxCount := 0
            txCount := 0
            currentRequest := some t
            operation := (s.blocks t).operation
            bytesToSend := (s.blocks t).writeLen
            bytesToReceive := (s.blocks t).readLen
            startTime := now }, [HWCall.sendStart])) := by
  constructor
  · rintro (h | h)
    · cases hq : s.queueHead with
      | none => simp [startTransaction, hq]
      | some t =>
          simp [startTransaction, hq, h, I2C_STATE_ACTIVE, I2C_STATE_FREE]
    · simp [startTransaction, h]
  · intro t h1 h2
    simp [startTransaction, h1, h2]

/-- Witness for C6 at concrete states: a no-op on the active state and
a start on the free state with a queued block. -/
theorem start_guarded_noop_witness :
    startTransaction 5 exOne = (exOne, []) ∧
    (startTransaction 5 exFreeQueued).2 = [HWCall.sendStart] :=
  ⟨(start_guarded_noop exOne 5).1 (Or.inl rfl),
   by rw [(start_guarded_noop exFreeQueued 5).2 0 rfl rfl]⟩

/-- C8: polling an idle manager (state free, queue empty) is a no-op:
it leaves the state unchanged, invokes no hardware primitive, and any
sequence of such polls equals one (indeed zero). -/
theorem idle_poll_noop (s : MgrState)
    (h1 : s.status = I2C_STATE_FREE) (h2 : s.queueHead = none)
    (h3 : s.queueTail = none) :
    (∀ now, loop now s = (s, [])) ∧ ∀ ts, loopSeq ts s = s := by
  have hl : ∀ now, loop now s = (s, []) := by
    intro now
    simp [loop, checkForTimeout, startTransaction, h2]
  refine ⟨hl, ?_⟩
  intro ts
  induction ts with
  | nil => rfl
  | cons a ts ih => simp only [loopSeq, hl a, ih]

/-- Witness for C8 on the concrete idle state. -/
theorem idle_poll_noop_witness :
    loop 7 exEmpty = (exEmpty, []) ∧ loopSeq [1, 2, 3] exEmpty = exEmpty :=
  ⟨(idle_poll_noop exEmpty rfl rfl rfl).1 7,
   (idle_poll_noop exEmpty rfl rfl rfl).2 [1, 2, 3]⟩

/-- C4: a zero timeout disables the timeout check: with timeout = 0 and
the state register active, any number of background polls (at any clock
readings) changes nothing, so the active block is never dequeued or
stamped and the adapter is never reset. -/
theorem zero_timeout_disables (s : MgrState)
    (h1 : s.timeout = 0) (h2 : s.status = I2C_STATE_ACTIVE) :
    (∀ now, loop now s = (s, [])) ∧ ∀ ts, loopSeq ts s = s := by
  have hl : ∀ now, loop now s = (s, []) := by
    intro now
    cases hq : s.queueHead with
    | none => simp [loop, checkForTimeout, startTransaction, hq, h2,
        I2C_STATE_ACTIVE, I2C_STATE_FREE]
    | some t => simp [loop, checkForTimeout, startTransaction, hq, h1, h2,
        I2C_STATE_ACTIVE, I2C_STATE_FREE]
  refine ⟨hl, ?_⟩
  intro ts
  induction ts with
  | nil => rfl
  | cons a ts ih => simp only [loopSeq, hl a, ih]

/-- Example state like exOne but with the timeout disabled. -/
def exOneNoTimeout : MgrState :=
  { exOne with timeout := 0 }

/-- Witness for C4: three polls on the active state with timeout 0
leave it untouched and its head block still pending. -/
theorem zero_timeout_disables_witness :
    loopSeq [100, 5000, 4294967295] exOneNoTimeout = exOneNoTimeout ∧
    ((loopSeq [100, 5000, 4294967295] exOneNoTimeout).blocks 0).status =
      I2C_STATUS_PENDING := by
  have h := (zero_timeout_disables exOneNoTimeout rfl rfl).2 [100, 5000, 4294967295]
  exact ⟨h, by rw [h]; rfl⟩

/-- The state after the completion path of handleInterrupt pops and
stamps the head block t: the block gets nBytes from the received count
and status from the hardware signal, the head advances along the link,
the tail is nulled when the queue empties, the state register is freed,
and the scratch counters hold the values the hardware step left. -/
def popStamp (s : MgrState) (t hwStatus hwRx hwTx : Nat) : MgrState :=
  { s with
      blocks := setBlock s.blocks t { s.blocks t with nBytes := hwRx, status := hwStatus }
      queueHead := (s.blocks t).nextRequest
      queueTail := match (s.blocks t).nextRequest with | none => none | some _ => s.queueTail
      status := I2C_STATE_FREE
      rxCount := hwRx
      txCount := hwTx }

/-- The state after the timeout path of checkForTimeout pops the head
block t and stamps it with the timeout status, clears currentRequest
and frees the state register. -/
def timeoutStamp (s : MgrState) (t : Nat) : MgrState :=
  { s with
      blocks := setBlock s.blocks t { s.blocks t with status := I2C_STATUS_TIMEOUT }
      queueHead := (s.blocks t).nextRequest
      queueTail := match (s.blocks t).nextRequest with | none => none | some _ => s.queueTail
      currentRequest := none
      status := I2C_STATE_FREE }

/-- Branch equation: when the hardware signal is no longer pending and
the queue is non-empty, handleInterrupt equals startTransaction applied
to the popped-and-stamped state, with the interrupt step logged first. -/
theorem handleInterrupt_complete_eq (s : MgrState) (t hwStatus hwRx hwTx now : Nat)
    (h1 : s.queueHead = some t) (h2 : hwStatus ≠ I2C_STATUS_PENDING) :
    handleInterrupt hwStatus hwRx hwTx now s =
      ((startTransaction now (popStamp s t hwStatus hwRx hwTx)).1,
       HWCall.handleIrq :: (startTransaction now (popStamp s t hwStatus hwRx hwTx)).2) := by
  unfold handleInterrupt
  simp only [h1]
  rw [if_pos]
  · rfl
  · simpa using h2

/-- Branch equation: when the timeout fires on the queue head,
checkForTimeout equals startTransaction applied to the
popped-and-stamped state, with the close and init adapter resets
logged first, in that order. -/
theorem checkForTimeout_fire_eq (s : MgrState) (t now : Nat)
    (h1 : s.queueHead = some t) (h2 : 0 < s.timeout)
    (h3 : s.timeout < usub32 now s.startTime) :
    checkForTimeout now s =
      ((startTransaction now (timeoutStamp s t)).1,
       HWCall.close :: HWCall.init :: (startTransaction now (timeoutStamp s t)).2) := by
  unfold checkForTimeout
  simp only [h1]
  rw [if_pos ⟨h2, h3⟩]
  rfl

/-- Branch equation: when the timeout condition does not hold (empty
queue, zero timeout, or elapsed time within bounds), checkForTimeout
is just startTransaction. -/
theorem checkForTimeout_nofire_eq (s : MgrState) (now : Nat)
    (h : ∀ t, s.queueHead = some t →
      ¬(0 < s.timeout ∧ s.timeout < usub32 now s.startTime)) :
    checkForTimeout now s = startTransaction now s := by
  cases hq : s.queueHead with
  | none => simp [checkForTimeout, startTransaction, hq]
  | some t =>
      unfold checkForTimeout
      simp only [hq]
      rw [if_neg (h t hq)]

/-- C1: completion transition: when handleInterrupt observes the
hardware signal is no longer pending and the queue is non-empty, it
pops the head block, stamps its status and transferred-byte count,
frees the state register, and re-invokes startTransaction within the
same interrupt handling, so the next queued block (if any) is started
before returning. -/
theorem interrupt_completion_transition (s : MgrState) (t hwStatus hwRx hwTx now : Nat)
    (h1 : s.queueHead = some t) (h2 : hwStatus ≠ I2C_STATUS_PENDING) :
    handleInterrupt hwStatus hwRx hwTx now s =
      ((startTransaction now (popStamp s t hwStatus hwRx hwTx)).1,
       HWCall.handleIrq :: (startTransaction now (popStamp s t hwStatus hwRx hwTx)).2) ∧
    (popStamp s t hwStatus hwRx hwTx).queueHead = (s.blocks t).nextRequest ∧
    ((popStamp s t hwStatus hwRx hwTx).blocks t).status = hwStatus ∧
    ((popStamp s t hwStatus hwRx hwTx).blocks t).nBytes = hwRx ∧
    (popStamp s t hwStatus hwRx hwTx).status = I2C_STATE_FREE := by
  refine ⟨handleInterrupt_complete_eq s t hwStatus hwRx hwTx now h1 h2, rfl, ?_, ?_, rfl⟩
  · simp [popStamp, setBlock]
  · simp [popStamp, setBlock]

/-- Example second pending block, linked after block 0. -/
def rbPend2 : I2CRB :=
  { i2cAddress := 33, operation := OPERATION_SEND, writeLen := 2, readLen := 0
    status := I2C_STATUS_PENDING, nBytes := 0, nextRequest := none }

/-- Example manager state with two queued blocks, block 0 active. -/
def exTwo : MgrState :=
  { blocks := fun i =>
      if i = 0 then { rbPend with nextRequest := some 1 }
      else if i = 1 then rbPend2 else rb0
    queueHead := some 0, queueTail := some 1, currentRequest := some 0
    status := I2C_STATE_ACTIVE, txCount := 0, rxCount := 0
    operation := OPERATION_SEND, bytesToSend := 1, bytesToReceive := 0
    startTime := 0, timeout := 10 }

/-- Witness for C1: completing block 0 of the two-block queue stamps
it ok, advances the head to block 1 and issues send-start for it
within the same interrupt handling. -/
theorem interrupt_completion_transition_witness :
    (handleInterrupt I2C_STATUS_OK 0 1 50 exTwo).2 =
      [HWCall.handleIrq, HWCall.sendStart] ∧
    ((handleInterrupt I2C_STATUS_OK 0 1 50 exTwo).1.blocks 0).status = I2C_STATUS_OK ∧
    (handleInterrupt I2C_STATUS_OK 0 1 50 exTwo).1.queueHead = some 1 ∧
    (handleInterrupt I2C_STATUS_OK 0 1 50 exTwo).1.status = I2C_STATE_ACTIVE := by
  have h := (interrupt_completion_transition exTwo 0 I2C_STATUS_OK 0 1 50 rfl
    (by decide)).1
  rw [h]
  exact ⟨rfl, rfl, rfl, rfl⟩

/-- C2: timeout transition: when the timeout is positive, the head is
non-null and the elapsed time (32-bit wraparound difference) exceeds
the timeout, a single poll pops the head, stamps it with the timeout
status, resets the adapter with close followed by init, frees the
state register, and then invokes startTransaction for the next queued
transaction. -/
theorem timeout_transition (s : MgrState) (t now : Nat)
    (h1 : s.queueHead = some t) (h2 : 0 < s.timeout)
    (h3 : s.timeout < usub32 now s.startTime) :
    checkForTimeout now s =
      ((startTransaction now (timeoutStamp s t)).1,
       HWCall.close :: HWCall.init :: (startTransaction now (timeoutStamp s t)).2) ∧
    (timeoutStamp s t).queueHead = (s.blocks t).nextRequest ∧
    ((timeoutStamp s t).blocks t).status = I2C_STATUS_TIMEOUT ∧
    (timeoutStamp s t).status = I2C_STATE_FREE ∧
    (timeoutStamp s t).currentRequest = none := by
  refine ⟨checkForTimeout_fire_eq s t now h1 h2 h3, rfl, ?_, rfl, rfl⟩
  simp [timeoutStamp, setBlock]

/-- Witness for C2: polling exOne at time 100 (elapsed 100 exceeds the
timeout 10) times out block 0, resets the adapter close-then-init and
leaves the manager free with an empty queue. -/
theorem timeout_transition_witness :
    ((checkForTimeout 100 exOne).1.blocks 0).status = I2C_STATUS_TIMEOUT ∧
    (checkForTimeout 100 exOne).1.queueHead = none ∧
    (checkForTimeout 100 exOne).1.status = I2C_STATE_FREE ∧
    (checkForTimeout 100 exOne).2 = [HWCall.close, HWCall.init] := by
  have h := (timeout_transition exOne 0 100 rfl (by decide) (by decide)).1
  rw [h]
  exact ⟨rfl, rfl, rfl, rfl⟩

/-- Example completed read block whose nBytes still holds 7 from its
previous use, now re-submitted as a plain write and queued. -/
def rbStale : I2CRB :=
  { i2cAddress := 32, operation := OPERATION_SEND, writeLen := 1, readLen := 0
    status := I2C_STATUS_PENDING, nBytes := 7, nextRequest := none }

/-- Example manager state whose single queued write block carries a
stale nBytes value. -/
def exStale : MgrState :=
  { blocks := fun i => if i = 0 then rbStale else rb0
    queueHead := some 0, queueTail := some 0, currentRequest := some 0
    status := I2C_STATE_ACTIVE, txCount := 0, rxCount := 0
    operation := OPERATION_SEND, bytesToSend := 1, bytesToReceive := 0
    startTime := 0, timeout := 0 }

/-- Counterexample to C9: completing a plain write (a non-read
operation) does not leave the nBytes field unchanged: block 0 enters
the interrupt with nBytes = 7 and leaves it with nBytes = 0, because
the completion path writes rxCount into nBytes unconditionally. -/
theorem nbytes_write_counterexample :
    (exStale.blocks 0).operation = OPERATION_SEND ∧
    (exStale.blocks 0).operation ≠ OPERATION_READ ∧
    (exStale.blocks 0).operation ≠ OPERATION_REQUEST ∧
    (exStale.blocks 0).nBytes = 7 ∧
    ((handleInterrupt I2C_STATUS_OK 0 1 9 exStale).1.blocks 0).nBytes = 0 := by
  refine ⟨rfl, by decide, by decide, rfl, ?_⟩
  have h := handleInterrupt_complete_eq exStale 0 I2C_STATUS_OK 0 1 9 rfl (by decide)
  rw [h]
  rfl

/-- C9 amended: the completion path writes the transferred-byte count
unconditionally: for every completed block, read or write alike,
nBytes is set to the received count the hardware step left in rxCount
(and status to the hardware signal). -/
theorem nbytes_stamped_unconditionally (s : MgrState) (t hwStatus hwRx hwTx now : Nat)
    (h1 : s.queueHead = some t) (h2 : hwStatus ≠ I2C_STATUS_PENDING) :
    ((handleInterrupt hwStatus hwRx hwTx now s).1.blocks t).nBytes = hwRx ∧
    ((handleInterrupt hwStatus hwRx hwTx now s).1.blocks t).status = hwStatus := by
  rw [handleInterrupt_complete_eq s t hwStatus hwRx hwTx now h1 h2]
  have hb := (startTransaction_frame now (popStamp s t hwStatus hwRx hwTx)).1
  rw [hb]
  constructor <;> simp [popStamp, setBlock]

/-- Witness for the amended C9: the completed write block gets
nBytes = 0 (the received count) and status ok. -/
theorem nbytes_stamped_unconditionally_witness :
    ((handleInterrupt I2C_STATUS_OK 0 1 9 exStale).1.blocks 0).nBytes = 0 ∧
    ((handleInterrupt I2C_STATUS_OK 0 1 9 exStale).1.blocks 0).status = I2C_STATUS_OK :=
  nbytes_stamped_unconditionally exStale 0 I2C_STATUS_OK 0 1 9 rfl (by decide)

/-- C10: the elapsed-time computation is wraparound safe: the unsigned
32-bit difference recovers the true elapsed time whenever it is below
2^32, even when the microsecond counter wrapped past zero, and hence
the timeout branch of checkForTimeout fires exactly when the true
elapsed time exceeds the (positive) timeout.  Firing is observed by
the close adapter call, which no other path of the poll emits. -/
theorem wraparound_timeout_check (start elapsed : Nat)
    (h1 : start < 4294967296) (h2 : elapsed < 4294967296) :
    usub32 ((start + elapsed) % 4294967296) start = elapsed ∧
    ∀ s t, s.queueHead = some t → s.startTime = start →
      (HWCall.close ∈ (checkForTimeout ((start + elapsed) % 4294967296) s).2 ↔
        0 < s.timeout ∧ s.timeout < elapsed) := by
  have hu : usub32 ((start + elapsed) % 4294967296) start = elapsed := by
    unfold usub32
    omega
  refine ⟨hu, ?_⟩
  intro s t hq hst
  subst hst
  by_cases hc : 0 < s.timeout ∧
      s.timeout < usub32 ((s.startTime + elapsed) % 4294967296) s.startTime
  · rw [checkForTimeout_fire_eq s t _ hq hc.1 hc.2]
    rw [hu] at hc
    simp [hc]
  · rw [checkForTimeout_nofire_eq s _ (fun t2 hq2 => by
      rw [hq] at hq2
      cases hq2
      exact hc)]
    have hni := (startTransaction_frame ((s.startTime + elapsed) % 4294967296) s).2.2.2.2.1
    rw [hu] at hc
    constructor
    · intro hmem
      exact absurd hmem hni
    · intro hcon
      exact absurd hcon hc

/-- Witness for C10: with a start timestamp just before the 32-bit
wrap and an elapsed time of 100, the counter reading has wrapped to 57
yet the poll on a 10-microsecond timeout still fires. -/
theorem wraparound_timeout_check_witness :
    usub32 ((4294967253 + 100) % 4294967296) 4294967253 = 100 ∧
    (HWCall.close ∈
      (checkForTimeout ((4294967253 + 100) % 4294967296)
        { exOne with startTime := 4294967253 }).2 ↔
      (0 < ({ exOne with startTime := 4294967253 } : MgrState).timeout ∧
        ({ exOne with startTime := 4294967253 } : MgrState).timeout < 100)) := by
  have h := wraparound_timeout_check 4294967253 100 (by decide) (by decide)
  exact ⟨h.1, h.2 { exOne with startTime := 4294967253 } 0 rfl rfl⟩

/-- One background poll never makes a non-pending block pending: the
only block-status write on the poll path is the terminal timeout
stamp. -/
theorem loop_not_pending (s : MgrState) (rb now : Nat)
    (h : (s.blocks rb).status ≠ I2C_STATUS_PENDING) :
    ((loop now s).1.blocks rb).status ≠ I2C_STATUS_PENDING := by
  unfold loop
  cases hq : s.queueHead with
  | none =>
      rw [checkForTimeout_nofire_eq s now (fun t ht => by rw [hq] at ht; cases ht)]
      rw [(startTransaction_frame now s).1]
      exact h
  | some t =>
      by_cases hc : 0 < s.timeout ∧ s.timeout < usub32 now s.startTime
      · rw [checkForTimeout_fire_eq s t now hq hc.1 hc.2]
        rw [(startTransaction_frame now (timeoutStamp s t)).1]
        by_cases hrt : rb = t
        · subst hrt
          simp [timeoutStamp, setBlock, I2C_STATUS_TIMEOUT, I2C_STATUS_PENDING]
        · simpa [timeoutStamp, setBlock, hrt] using h
      · rw [checkForTimeout_nofire_eq s now (fun t2 ht2 => by
          rw [hq] at ht2; cases ht2; exact hc)]
        rw [(startTransaction_frame now s).1]
        exact h

/-- queueRequest always leaves the tail pointing at the block just
appended. -/
theorem queueRequest_tail (rb now : Nat) (s : MgrState) :
    (queueRequest rb now s).1.queueTail = some rb := by
  unfold queueRequest
  cases htl : s.queueTail <;>
    simp only [htl] <;>
    rw [(startTransaction_frame now _).2.2.1]

/-- C7: the public operations are non-blocking: on any well-formed
input (the submitted block is not pending, the discipline the spec
demands of callers), write, write_P and read return after a single
bounded pass (busy-poll fuel 1 suffices), reporting ok and having
appended the block to the queue; they never spin until the submitted
or any other transaction completes. -/
theorem api_nonblocking (s : MgrState) (rb addr wlen rlen now : Nat)
    (h : (s.blocks rb).status ≠ I2C_STATUS_PENDING) :
    (∃ r, write addr wlen rb 1 now s = some r ∧ r.2 = I2C_STATUS_OK ∧
      r.1.queueTail = some rb) ∧
    (∃ r, writeP addr wlen rb 1 now s = some r ∧ r.2 = I2C_STATUS_OK ∧
      r.1.queueTail = some rb) ∧
    (∃ r, read addr rlen wlen rb 1 now s = some r ∧ r.2 = I2C_STATUS_OK ∧
      r.1.queueTail = some rb) := by
  have hw1 : wait 1 rb now s = some (loop now s).1 := by
    unfold wait
    rw [if_neg (loop_not_pending s rb now h)]
  have hwr : write addr wlen rb 1 now s =
      some ((queueRequest rb now
          { (loop now s).1 with
              blocks :=
                setBlock (loop now s).1.blocks rb
                  (setWriteParams addr wlen ((loop now s).1.blocks rb)) }).1,
        I2C_STATUS_OK) := by
    unfold write
    rw [hw1]
  have hwrp : writeP addr wlen rb 1 now s =
      some ((queueRequest rb now
          { (loop now s).1 with
              blocks :=
                setBlock (loop now s).1.blocks rb
                  { setWriteParams addr wlen ((loop now s).1.blocks rb) with
                      operation := OPERATION_SEND_P } }).1,
        I2C_STATUS_OK) := by
    unfold writeP
    rw [hw1]
  have hrd : read addr rlen wlen rb 1 now s =
      some ((queueRequest rb now
          { (loop now s).1 with
              blocks :=
                setBlock (loop now s).1.blocks rb
                  (setRequestParams addr rlen wlen ((loop now s).1.blocks rb)) }).1,
        I2C_STATUS_OK) := by
    unfold read
    rw [hw1]
  exact ⟨⟨_, hwr, rfl, queueRequest_tail rb now _⟩,
         ⟨_, hwrp, rfl, queueRequest_tail rb now _⟩,
         ⟨_, hrd, rfl, queueRequest_tail rb now _⟩⟩

/-- Witness for C7: submitting the terminal-status block 1 on the busy
one-deep queue returns ok at once with the block appended at the
tail. -/
theorem api_nonblocking_witness :
    ∃ r, write 32 1 1 1 0 exOne = some r ∧ r.2 = I2C_STATUS_OK ∧
      r.1.queueTail = some 1 :=
  (api_nonblocking exOne 1 32 1 0 0 (by decide)).1

/-- An element returned by getLast? is a member of the list. -/
theorem mem_of_getLast_opt (L : List Nat) (x : Nat) (h : L.getLast? = some x) :
    x ∈ L := by
  obtain ⟨ys, rfl⟩ := List.getLast?_eq_some_iff.mp h
  simp

/-- chainFrom only reads the next links of the listed blocks, so any
heap agreeing on those links carries the same chain. -/
theorem chainFrom_congr (blocks blocks2 : Nat → I2CRB) (L : List Nat)
    (hag : ∀ b ∈ L, (blocks2 b).nextRequest = (blocks b).nextRequest) :
    ∀ p, chainFrom blocks p L → chainFrom blocks2 p L := by
  induction L with
  | nil => intro p h; exact h
  | cons a L ih =>
      intro p h
      obtain ⟨hp, hc⟩ := h
      refine ⟨hp, ?_⟩
      rw [hag a (List.mem_cons_self a L)]
      exact ih (fun b hb => hag b (List.mem_cons_of_mem a hb)) _ hc

/-- Appending one block at the tail of a chain: if the new heap links
the old last block to rb, null-terminates rb, and agrees with the old
heap on the links of all other listed blocks, the chain extends by
rb. -/
theorem chainFrom_append (blocks blocks2 : Nat → I2CRB) (L : List Nat) (rb tl : Nat)
    (hlast : L.getLast? = some tl)
    (hnd : L.Nodup)
    (hag : ∀ b ∈ L, b ≠ tl → (blocks2 b).nextRequest = (blocks b).nextRequest)
    (htl : (blocks2 tl).nextRequest = some rb)
    (hrb : (blocks2 rb).nextRequest = none) :
    ∀ p, chainFrom blocks p L → chainFrom blocks2 p (L ++ [rb]) := by
  induction L with
  | nil => intro p h; cases hlast
  | cons a L ih =>
      intro p h
      obtain ⟨hp, hc⟩ := h
      cases L with
      | nil =>
          have ha : a = tl := by simpa using hlast
          subst ha
          exact ⟨hp, by rw [htl]; exact ⟨rfl, hrb⟩⟩
      | cons b L2 =>
          have hlast2 : (b :: L2).getLast? = some tl := by
            rw [← List.getLast?_cons_cons]
            exact hlast
          have hatl : a ≠ tl := by
            intro e
            subst e
            exact (List.nodup_cons.mp hnd).1 (mem_of_getLast_opt _ _ hlast2)
          refine ⟨hp, ?_⟩
          rw [hag a (List.mem_cons_self a _) hatl]
          exact ih hlast2 (List.nodup_cons.mp hnd).2
            (fun x hx hxt => hag x (List.mem_cons_of_mem a hx) hxt) _ hc

/-- The queue invariant only concerns the heap and the two queue
pointers, so it transports along any state change fixing those. -/
theorem wf_transport (s s2 : MgrState) (L : List Nat)
    (hb : s2.blocks = s.blocks) (hh : s2.queueHead = s.queueHead)
    (ht : s2.queueTail = s.queueTail) (h : WFq s L) : WFq s2 L := by
  obtain ⟨h1, h2, h3, h4⟩ := h
  refine ⟨?_, ?_, h3, ?_⟩
  · rw [hb, hh]
    exact h1
  · rw [ht]
    exact h2
  · rw [hb]
    exact h4

/-- startTransaction preserves the queue invariant. -/
theorem wf_startTransaction (now : Nat) (s : MgrState) (L : List Nat)
    (h : WFq s L) : WFq (startTransaction now s).1 L := by
  obtain ⟨f1, f2, f3, -⟩ := startTransaction_frame now s
  exact wf_transport s _ L f1 f2 f3 h

/-- Popping the head t of a well-formed queue and overwriting block t
with any non-pending record preserves all four components of the
invariant on the remaining list. -/
theorem wf_pop_aux (blocks : Nat → I2CRB) (head tail : Option Nat) (t : Nat)
    (L2 : List Nat) (b2 : I2CRB)
    (hch : chainFrom blocks head (t :: L2))
    (htail : tail = (t :: L2).getLast?)
    (hnd : (t :: L2).Nodup)
    (hst : ∀ b, (blocks b).status = I2C_STATUS_PENDING ↔ b ∈ t :: L2)
    (hb2 : b2.status ≠ I2C_STATUS_PENDING) :
    chainFrom (setBlock blocks t b2) (blocks t).nextRequest L2 ∧
    (match (blocks t).nextRequest with
     | none => (none : Option Nat)
     | some _ => tail) = L2.getLast? ∧
    L2.Nodup ∧
    (∀ b, ((setBlock blocks t b2) b).status = I2C_STATUS_PENDING ↔ b ∈ L2) := by
  obtain ⟨hp, hc⟩ := hch
  have hndc := List.nodup_cons.mp hnd
  refine ⟨?_, ?_, hndc.2, ?_⟩
  · apply chainFrom_congr blocks _ L2 ?_ _ hc
    intro b hb
    have hbt : b ≠ t := fun e => hndc.1 (e ▸ hb)
    simp [setBlock, hbt]
  · cases hnx : (blocks t).nextRequest with
    | none =>
        rw [hnx] at hc
        cases L2 with
        | nil => rfl
        | cons u L3 => cases hc.1
    | some u =>
        rw [hnx] at hc
        cases L2 with
        | nil => cases hc
        | cons v L3 =>
            rw [htail, List.getLast?_cons_cons]
  · intro b
    by_cases hb0 : b = t
    · subst hb0
      simp [setBlock, hb2, hndc.1]
    · have := hst b
      simp only [List.mem_cons, hb0, false_or] at this
      simpa [setBlock, hb0] using this

/-- Branch equation: when the hardware step leaves the pending status,
handleInterrupt only records the scratch values and logs the step. -/
theorem handleInterrupt_pending_eq (a b c now : Nat) (s : MgrState)
    (ha : a = I2C_STATUS_PENDING) :
    handleInterrupt a b c now s =
      ({ s with status := a, rxCount := b, txCount := c }, [HWCall.handleIrq]) := by
  subst ha
  unfold handleInterrupt
  rw [if_neg]
  simp

/-- Branch equation: a completion signal with an empty queue frees the
state register and retries startTransaction. -/
theorem handleInterrupt_none_eq (a b c now : Nat) (s : MgrState)
    (h1 : s.queueHead = none) (h2 : a ≠ I2C_STATUS_PENDING) :
    handleInterrupt a b c now s =
      ((startTransaction now
          { s with status := I2C_STATE_FREE, rxCount := b, txCount := c }).1,
       HWCall.handleIrq ::
         (startTransaction now
           { s with status := I2C_STATE_FREE, rxCount := b, txCount := c }).2) := by
  unfold handleInterrupt
  simp only [h1]
  rw [if_pos]
  simpa using h2

/-- A well-formed queue with a null head carries the empty list. -/
theorem wf_head_none (s : MgrState) (L : List Nat) (h : WFq s L)
    (hq : s.queueHead = none) : L = [] := by
  cases L with
  | nil => rfl
  | cons a L2 =>
      have := h.1.1
      rw [hq] at this
      cases this

/-- A well-formed queue with head t carries a list beginning with t. -/
theorem wf_head_some (s : MgrState) (L : List Nat) (t : Nat) (h : WFq s L)
    (hq : s.queueHead = some t) : ∃ L2, L = t :: L2 := by
  cases L with
  | nil =>
      have := h.1
      rw [hq] at this
      cases this
  | cons a L2 =>
      have := h.1.1
      rw [hq] at this
      cases this
      exact ⟨L2, rfl⟩

/-- queueRequest of a non-pending block appends it to the abstract
queue and preserves the invariant. -/
theorem wf_queueRequest (s : MgrState) (L : List Nat) (rb now : Nat)
    (h : WFq s L) (hrb : (s.blocks rb).status ≠ I2C_STATUS_PENDING) :
    WFq (queueRequest rb now s).1 (L ++ [rb]) := by
  obtain ⟨h1, h2, h3, h4⟩ := h
  have hrbL : rb ∉ L := fun hm => hrb ((h4 rb).mpr hm)
  unfold queueRequest
  cases htl : s.queueTail with
  | none =>
      have hL : L = [] := by
        cases L with
        | nil => rfl
        | cons a L2 =>
            rw [htl] at h2
            have h2s : (a :: L2).getLast? = none := h2.symm
            rw [List.getLast?_eq_none_iff] at h2s
            cases h2s
      subst hL
      simp only [htl]
      apply wf_startTransaction
      refine ⟨⟨rfl, by simp [chainFrom, setBlock]⟩, by simp, by simp, ?_⟩
      intro b
      by_cases hb0 : b = rb
      · subst hb0
        simp [setBlock]
      · simp [setBlock, hb0, h4 b]
  | some tl =>
      rw [htl] at h2
      have hlast : L.getLast? = some tl := h2.symm
      have htlL : tl ∈ L := mem_of_getLast_opt L tl hlast
      have hrtl : rb ≠ tl := fun e => hrbL (e ▸ htlL)
      simp only [htl]
      apply wf_startTransaction
      refine ⟨?_, by simp, ?_, ?_⟩
      · apply chainFrom_append s.blocks _ L rb tl hlast h3 ?_ ?_ ?_ _ h1
        · intro b hb hbt
          have hbrb : b ≠ rb := fun e => hrbL (e ▸ hb)
          simp [setBlock, hbt, hbrb]
        · simp [setBlock, Ne.symm hrtl]
        · simp [setBlock, hrtl]
      · simp [List.nodup_append, h3, List.disjoint_singleton, hrbL]
      · intro b
        by_cases hb0 : b = rb
        · subst hb0
          simp [setBlock, hrtl]
        · by_cases hb1 : b = tl
          · subst hb1
            simp [setBlock, hb0, Ne.symm hb0, htlL, (h4 b).mpr htlL]
          · simp [setBlock, hb0, hb1, h4 b]

/-- One background poll preserves the invariant, stamping at most the
head block of the abstract queue. -/
theorem wf_poll_step (now : Nat) (s : MgrState) (L : List Nat) (h : WFq s L) :
    ∃ L2, WFq (loop now s).1 L2 ∧ stampedOf (Event.poll now) s ++ L2 = L := by
  cases hq : s.queueHead with
  | none =>
      have hL := wf_head_none s L h hq
      subst hL
      refine ⟨[], ?_, by simp [stampedOf, hq]⟩
      unfold loop
      rw [checkForTimeout_nofire_eq s now (fun t ht => by rw [hq] at ht; cases ht)]
      exact wf_startTransaction now s [] h
  | some t =>
      obtain ⟨L2, rfl⟩ := wf_head_some s L t h hq
      by_cases hc : 0 < s.timeout ∧ s.timeout < usub32 now s.startTime
      · refine ⟨L2, ?_, by simp [stampedOf, hq, hc]⟩
        unfold loop
        rw [checkForTimeout_fire_eq s t now hq hc.1 hc.2]
        apply wf_startTransaction
        obtain ⟨h1, h2, h3, h4⟩ := h
        have hpop := wf_pop_aux s.blocks s.queueHead s.queueTail t L2
          { s.blocks t with status := I2C_STATUS_TIMEOUT } h1 h2 h3 h4
          (by simp [I2C_STATUS_TIMEOUT, I2C_STATUS_PENDING])
        exact ⟨hpop.1, hpop.2.1, hpop.2.2.1, hpop.2.2.2⟩
      · refine ⟨t :: L2, ?_, by simp [stampedOf, hq, hc]⟩
        unfold loop
        rw [checkForTimeout_nofire_eq s now
          (fun t2 ht2 => by rw [hq] at ht2; cases ht2; exact hc)]
        exact wf_startTransaction now s _ h

/-- One interrupt preserves the invariant, stamping at most the head
block of the abstract queue. -/
theorem wf_irq_step (a b c now : Nat) (s : MgrState) (L : List Nat) (h : WFq s L) :
    ∃ L2, WFq (handleInterrupt a b c now s).1 L2 ∧
      stampedOf (Event.irq a b c now) s ++ L2 = L := by
  by_cases ha : a = I2C_STATUS_PENDING
  · refine ⟨L, ?_, by simp [stampedOf, ha]⟩
    rw [handleInterrupt_pending_eq a b c now s ha]
    exact wf_transport s _ L rfl rfl rfl h
  · cases hq : s.queueHead with
    | none =>
        have hL := wf_head_none s L h hq
        subst hL
        refine ⟨[], ?_, by simp [stampedOf, ha, hq]⟩
        rw [handleInterrupt_none_eq a b c now s hq ha]
        apply wf_startTransaction
        exact wf_transport s _ [] rfl rfl rfl h
    | some t =>
        obtain ⟨L2, rfl⟩ := wf_head_some s L t h hq
        refine ⟨L2, ?_, by simp [stampedOf, ha, hq]⟩
        rw [handleInterrupt_complete_eq s t a b c now hq ha]
        apply wf_startTransaction
        obtain ⟨h1, h2, h3, h4⟩ := h
        have hpop := wf_pop_aux s.blocks s.queueHead s.queueTail t L2
          { s.blocks t with nBytes := b, status := a } h1 h2 h3 h4 (by simpa using ha)
        exact ⟨hpop.1, hpop.2.1, hpop.2.2.1, hpop.2.2.2⟩

/-- Any single event stamps zero or one block. -/
theorem stampedOf_short (e : Event) (s : MgrState) :
    stampedOf e s = [] ∨ ∃ t, stampedOf e s = [t] := by
  cases e with
  | enq rb now => exact Or.inl rfl
  | irq a b c now =>
      by_cases ha : a ≠ I2C_STATUS_PENDING
      · cases hq : s.queueHead with
        | none => exact Or.inl (by simp [stampedOf, ha, hq])
        | some t => exact Or.inr ⟨t, by simp [stampedOf, ha, hq]⟩
      · exact Or.inl (by simp [stampedOf, ha])
  | poll now =>
      cases hq : s.queueHead with
      | none => exact Or.inl (by simp [stampedOf, hq])
      | some t =>
          by_cases hc : 0 < s.timeout ∧ s.timeout < usub32 now s.startTime
          · exact Or.inr ⟨t, by simp [stampedOf, hq, hc]⟩
          · exact Or.inl (by simp [stampedOf, hq, hc])

/-- A list that loses a zero- or one-element prefix is the whole list
or its tail. -/
theorem stamp_tail (st L2 L : List Nat) (h : st ++ L2 = L)
    (hs : st = [] ∨ ∃ t, st = [t]) : L2 = L ∨ L2 = L.tail := by
  rcases hs with hs | ⟨t, hs⟩
  · subst hs
    simp at h
    exact Or.inl h
  · subst hs
    subst h
    exact Or.inr rfl

/-- C5: every operation preserves the queue invariant (the tail is
null iff the head is null, links run through the list and only the
last is null, no block appears twice, and exactly the queued blocks
are pending): queueRequest of a block obeying the caller discipline
appends it (stamping it pending as it becomes visible),
startTransaction changes nothing of the queue, and the poll and
interrupt paths remove at most the head. -/
theorem queue_invariant_preserved (s : MgrState) (L : List Nat) (h : WFq s L) :
    (∀ rb now, (s.blocks rb).status ≠ I2C_STATUS_PENDING →
      WFq (queueRequest rb now s).1 (L ++ [rb])) ∧
    (∀ now, WFq (startTransaction now s).1 L) ∧
    (∀ now, ∃ L2, WFq (checkForTimeout now s).1 L2 ∧ (L2 = L ∨ L2 = L.tail)) ∧
    (∀ a b c now, ∃ L2, WFq (handleInterrupt a b c now s).1 L2 ∧
      (L2 = L ∨ L2 = L.tail)) := by
  refine ⟨fun rb now hrb => wf_queueRequest s L rb now h hrb,
          fun now => wf_startTransaction now s L h, ?_, ?_⟩
  · intro now
    obtain ⟨L2, hw, he⟩ := wf_poll_step now s L h
    exact ⟨L2, hw, stamp_tail _ _ _ he (stampedOf_short _ s)⟩
  · intro a b c now
    obtain ⟨L2, hw, he⟩ := wf_irq_step a b c now s L h
    exact ⟨L2, hw, stamp_tail _ _ _ he (stampedOf_short _ s)⟩

/-- The empty example state satisfies the queue invariant with the
empty list. -/
theorem wf_exEmpty : WFq exEmpty [] := by
  refine ⟨rfl, rfl, List.nodup_nil, ?_⟩
  intro b
  simp [exEmpty, rb0, I2C_STATUS_OK, I2C_STATUS_PENDING]

/-- Witness for C5: from the well-formed empty state, enqueuing block
0 yields a well-formed one-element queue, and a speculative start
preserves well-formedness. -/
theorem queue_invariant_preserved_witness :
    WFq (queueRequest 0 3 exEmpty).1 [0] ∧
    WFq (startTransaction 3 exEmpty).1 [] := by
  have h := queue_invariant_preserved exEmpty [] wf_exEmpty
  exact ⟨by simpa using h.1 0 3 (by decide), h.2.1 3⟩

/-- C3: FIFO ordering: along any admissible event run (blocks are only
re-submitted after terminal status, as the public operations enforce),
the blocks stamped with a terminal status, in order, followed by the
remaining well-formed queue, equal the initial queue followed by the
enqueued blocks in submission order.  Hence terminal statuses are
handed out in exactly enqueue order: queueRequest appends only at the
tail and the completion and timeout paths remove only the head. -/
theorem fifo_order (evs : List Event) (s : MgrState) (L : List Nat)
    (h : WFq s L) (ha : admissible evs s = true) :
    ∃ L2, WFq (run evs s) L2 ∧
      stampedRun evs s ++ L2 = L ++ enqueued evs := by
  induction evs generalizing s L with
  | nil => exact ⟨L, h, by simp [stampedRun, run, enqueued]⟩
  | cons e evs ih =>
      cases e with
      | enq rb now =>
          simp only [admissible, Bool.and_eq_true] at ha
          obtain ⟨hg, ha2⟩ := ha
          have hrb : (s.blocks rb).status ≠ I2C_STATUS_PENDING := by
            simpa using hg
          have hstep : WFq (step (Event.enq rb now) s) (L ++ [rb]) :=
            wf_queueRequest s L rb now h hrb
          obtain ⟨L2, hw, he⟩ := ih (step (Event.enq rb now) s) (L ++ [rb]) hstep ha2
          refine ⟨L2, hw, ?_⟩
          simp only [stampedRun, stampedOf, run, List.nil_append, enqueued]
          rw [he]
          simp
      | irq a b c now =>
          simp only [admissible, Bool.and_eq_true] at ha
          obtain ⟨-, ha2⟩ := ha
          obtain ⟨M, hwM, hsM⟩ := wf_irq_step a b c now s L h
          obtain ⟨L2, hw, he⟩ := ih (step (Event.irq a b c now) s) M hwM ha2
          refine ⟨L2, hw, ?_⟩
          simp only [stampedRun, run, enqueued]
          rw [List.append_assoc, he, ← List.append_assoc, hsM]
      | poll now =>
          simp only [admissible, Bool.and_eq_true] at ha
          obtain ⟨-, ha2⟩ := ha
          obtain ⟨M, hwM, hsM⟩ := wf_poll_step now s L h
          obtain ⟨L2, hw, he⟩ := ih (step (Event.poll now) s) M hwM ha2
          refine ⟨L2, hw, ?_⟩
          simp only [stampedRun, run, enqueued]
          rw [List.append_assoc, he, ← List.append_assoc, hsM]

/-- Example run: enqueue blocks 0 and 1, complete block 0, poll idly,
complete block 1. -/
def exRun : List Event :=
  [Event.enq 0 0, Event.enq 1 1, Event.irq I2C_STATUS_OK 0 1 2,
   Event.poll 3, Event.irq I2C_STATUS_OK 0 2 4]

/-- Witness for C3 on the concrete run: the stamped order plus the
residual queue equals the enqueue order 0, 1. -/
theorem fifo_order_witness :
    ∃ L2, WFq (run exRun exEmpty) L2 ∧
      stampedRun exRun exEmpty ++ L2 = [] ++ enqueued exRun :=
  fifo_order exRun exEmpty [] wf_exEmpty (by decide)

end I2CCore
